import Mathlib

/-!
Verification development for the DocRot documentation-rot scanner
(`docrot.py`): a shallow embedding of its detection engine in Lean 4,
with theorems checking the natural-language specification against it.

Modelling conventions:
* Python strings are embedded as `List Char` (named `Str` below); a
  document's text is a `Str` and `text.split('\n')` is `splitLines`.
* The filesystem and the network are external collaborators; they are
  embedded as boolean oracles (`Str → Bool`) answering existence /
  reachability queries, exactly at the call sites where the Python code
  queries them (`Path.exists`, `_url_ok`).
* The regular expressions `LINK_RE`, `IMPORT_RE`, `CODE_BLOCK_RE`,
  `CLI_FLAG_RE` are embedded as executable scanners over `List Char`
  that reproduce `re.finditer` semantics (left-to-right, non-overlapping,
  leftmost alternation, with the backtracking the patterns can actually
  exercise).  Character classes `\w`, `\s` are modelled at ASCII width,
  which covers every string the repository's documents and tests use.
* Scanning loops that may consume more than one character per step take
  an explicit fuel argument; the callers pass `length + 1`, which is an
  upper bound on the number of steps since every step consumes at least
  one character, so the fuel never runs out before the input is empty.
-/

namespace DocRot

abbrev Str := List Char

/-- ASCII model of Python's regex class `\s` (whitespace). -/
def isSpaceCh (c : Char) : Bool :=
  c == ' ' || c == '\t' || c == '\n' || c == '\r' || c == '\x0b' || c == '\x0c'

/-- ASCII model of Python's regex class `\w` (word character). -/
def isWordCh (c : Char) : Bool :=
  c.isAlphanum || c == '_'

/-- Characters of the class `[\w.]` used by `IMPORT_RE`. -/
def isModCh (c : Char) : Bool :=
  isWordCh c || c == '.'

/-- Characters of the class `[\w-]` used by `CLI_FLAG_RE`. -/
def isFlagCh (c : Char) : Bool :=
  isWordCh c || c == '-'

/-- Python's `text.split('\n')`: always nonempty, keeps empty pieces. -/
def splitLines : Str → List Str
  | [] => [[]]
  | c :: rest =>
    if c = '\n' then [] :: splitLines rest
    else
      match splitLines rest with
      | [] => [[c]]
      | l :: ls => (c :: l) :: ls

/-- Python's `str.lstrip()` (whitespace). -/
def ltrim (l : Str) : Str := l.dropWhile isSpaceCh

/-- Python's `str.rstrip()` (whitespace). -/
def rtrim (l : Str) : Str := (l.reverse.dropWhile isSpaceCh).reverse

/-- Python's `str.strip()` (whitespace). -/
def trim (l : Str) : Str := rtrim (ltrim l)

/-- The fence delimiter `'''` (three backticks). -/
def fenceStr : Str := "```".toList

/-- Test for a fence delimiter line (startswith three backticks), used by
both line loops. -/
def isFenceLine (l : Str) : Bool := fenceStr.isPrefixOf l

/-- Expect the literal `pat` at the head of `l`; on success return the rest. -/
def dropLit : Str → Str → Option Str
  | [], rest => some rest
  | _ :: _, [] => none
  | p :: ps, c :: cs => if c = p then dropLit ps cs else none

/-- Regex `\s+` with maximal munch; returns the rest on success. -/
def spaces1 : Str → Option Str
  | [] => none
  | c :: cs => if isSpaceCh c then some (cs.dropWhile isSpaceCh) else none

/-- Regex `[p]+` with maximal munch; returns (captured run, rest). -/
def chars1 (p : Char → Bool) : Str → Option (Str × Str)
  | [] => none
  | c :: cs => if p c then some (c :: cs.takeWhile p, cs.dropWhile p) else none

/-- The branch `from\s+([\w.]+)\s+import` of `IMPORT_RE` at the current
position.  Maximal munch needs no backtracking here: shortening `[\w.]+`
always leaves a `[\w.]` character where `\s` is required, and shortening
`\s+` leaves a whitespace character where a literal is required. -/
def tryFromImport (l : Str) : Option (Str × Str) :=
  match dropLit "from".toList l with
  | none => none
  | some r1 =>
    match spaces1 r1 with
    | none => none
    | some r2 =>
      match chars1 isModCh r2 with
      | none => none
      | some (m, r3) =>
        match spaces1 r3 with
        | none => none
        | some r4 =>
          match dropLit "import".toList r4 with
          | none => none
          | some r5 => some (m, r5)

/-- The branch `import\s+([\w.]+)` of `IMPORT_RE` at the current position. -/
def tryPlainImport (l : Str) : Option (Str × Str) :=
  match dropLit "import".toList l with
  | none => none
  | some r1 =>
    match spaces1 r1 with
    | none => none
    | some r2 =>
      match chars1 isModCh r2 with
      | none => none
      | some (m, r3) => some (m, r3)

/-- Model of `IMPORT_RE.finditer`: at each position try the `from` branch, then the
`import` branch; on a match resume after it, else advance one character.
Each step consumes at least one character, so `fuel = length + 1` is
never exhausted on nonempty input. -/
def importsInAux : Nat → Str → List Str
  | 0, _ => []
  | _ + 1, [] => []
  | n + 1, c :: cs =>
    match tryFromImport (c :: cs) with
    | some (m, r) => m :: importsInAux n r
    | none =>
      match tryPlainImport (c :: cs) with
      | some (m, r) => m :: importsInAux n r
      | none => importsInAux n cs

/-- All modules captured by `IMPORT_RE.finditer` over `l` (group 1 or 2). -/
def importsIn (l : Str) : List Str := importsInAux (l.length + 1) l

/-- One match of `LINK_RE = \[([^\]]*)\]\(([^)]+)\)` at the current
position; returns (target = group 2, rest after the match).  Both
character classes are negations, so maximal munch is exact. -/
def tryLink (l : Str) : Option (Str × Str) :=
  match l with
  | c :: cs =>
    if c = '[' then
      match cs.dropWhile (fun x => !(x = ']')) with
      | b :: r1 =>
        if b = ']' then
          match r1 with
          | p :: r2 =>
            if p = '(' then
              match chars1 (fun x => !(x = ')')) r2 with
              | some (href, r3) =>
                match r3 with
                | q :: r4 => if q = ')' then some (href, r4) else none
                | [] => none
              | none => none
            else none
          | [] => none
        else none
      | [] => none
    else none
  | [] => none

/-- Model of `LINK_RE.finditer`: link targets (group 2) left to right. -/
def linksInAux : Nat → Str → List Str
  | 0, _ => []
  | _ + 1, [] => []
  | n + 1, c :: cs =>
    match tryLink (c :: cs) with
    | some (href, r) => href :: linksInAux n r
    | none => linksInAux n cs

/-- All link targets captured by `LINK_RE.finditer` over one line. -/
def linksIn (l : Str) : List Str := linksInAux (l.length + 1) l

/-- Word-boundary test `\b` between a last consumed character and the
rest of the input (end of string counts as a non-word side). -/
def wordBoundary (last : Char) (rest : Str) : Bool :=
  match rest with
  | [] => isWordCh last
  | c :: _ => isWordCh last != isWordCh c

/-- Backtracking for `--[a-zA-Z][\w-]*\b`: `revKept` is the reversed
portion of the token kept so far (never the leading `--`), `after` the
characters following it.  Shrink from the maximal munch until `\b` holds. -/
def flagCut : Str → Str → Option (Str × Str)
  | [], _ => none
  | lastc :: revRest, after =>
    if wordBoundary lastc after then some ((lastc :: revRest).reverse, after)
    else flagCut revRest (lastc :: after)

/-- One match of `CLI_FLAG_RE = (--[a-zA-Z][\w-]*|-[a-zA-Z])\b` at the
current position; returns (flag, rest after it).  When the long branch
applies, the short branch cannot (the second character is `-`). -/
def tryFlag (l : Str) : Option (Str × Str) :=
  match l with
  | d1 :: d2 :: c :: cs =>
    if d1 = '-' then
      if d2 = '-' then
        if c.isAlpha then
          match flagCut (c :: cs.takeWhile isFlagCh).reverse (cs.dropWhile isFlagCh) with
          | some (kept, after) => some ('-' :: '-' :: kept, after)
          | none => none
        else none
      else
        if d2.isAlpha && wordBoundary d2 (c :: cs) then some ([d1, d2], c :: cs)
        else none
    else none
  | [d1, d2] =>
    if d1 = '-' && d2.isAlpha && wordBoundary d2 [] then some ([d1, d2], [])
    else none
  | _ => none

/-- Model of `CLI_FLAG_RE.finditer`: flag tokens left to right. -/
def cliFlagsAux : Nat → Str → List Str
  | 0, _ => []
  | _ + 1, [] => []
  | n + 1, c :: cs =>
    match tryFlag (c :: cs) with
    | some (f, r) => f :: cliFlagsAux n r
    | none => cliFlagsAux n cs

/-- All flag-shaped tokens of a command segment. -/
def cliFlags (l : Str) : List Str := cliFlagsAux (l.length + 1) l

/-- Match of the opening part of `CODE_BLOCK_RE` (three backticks, a word
run, a newline) at the current position; returns
the rest after the newline. -/
def tryOpenFence (l : Str) : Option Str :=
  if fenceStr.isPrefixOf l then
    match (l.drop 3).dropWhile isWordCh with
    | c :: rest => if c = '\n' then some rest else none
    | [] => none
  else none

/-- Split at the first occurrence of `'''`: returns (body before it, rest
after it); `none` if the input contains no `'''` at all. -/
def findCloseFence : Str → Option (Str × Str)
  | [] => none
  | c :: cs =>
    if fenceStr.isPrefixOf (c :: cs) then some ([], (c :: cs).drop 3)
    else
      match findCloseFence cs with
      | some (b, r) => some (c :: b, r)
      | none => none

/-- Model of `CODE_BLOCK_RE.finditer` over the whole text (`re.DOTALL`, lazy body):
returns, for each match, the number of newlines strictly before the match
start (`nl`) and the captured body (group 1).  `nl` is threaded so that
the expression `text[:m.start()].count(newline) + 2` of the Doc Scanner
is `nl + 2`.
When an opening succeeds but no closing `'''` exists, no further match is
possible anywhere (the input past the opening contains no `'''`, and the
two overlapping positions inside the opening delimiter cannot start one),
which is why the scanning stops there, exactly as `finditer` yields nothing. -/
def codeBlocksAux : Nat → Nat → Str → List (Nat × Str)
  | 0, _, _ => []
  | _ + 1, _, [] => []
  | n + 1, nl, c :: cs =>
    match tryOpenFence (c :: cs) with
    | some afterOpen =>
      match findCloseFence afterOpen with
      | some (body, after) =>
        (nl, body) :: codeBlocksAux n (nl + 1 + body.count '\n') after
      | none => []
    | none => codeBlocksAux n (if c = '\n' then nl + 1 else nl) cs

/-- All `CODE_BLOCK_RE` matches of a document text. -/
def codeBlocks (text : Str) : List (Nat × Str) :=
  codeBlocksAux (text.length + 1) 0 text

/-- The `Issue` dataclass; `severity` defaults to `"warning"` and no call
site of the program ever passes a different value. -/
structure Issue where
  file : Str
  line : Nat
  kind : Str
  message : Str
  severity : Str := "warning".toList
deriving DecidableEq, Repr

/-- Constructor call `Issue(rel, i, kind, message)` — the only shape used. -/
def mkIssue (file : Str) (line : Nat) (kind : Str) (message : Str) : Issue :=
  { file := file, line := line, kind := kind, message := message }

/-- The `ScanResult` dataclass. -/
structure ScanResult where
  issues : List Issue
  docs_scanned : Nat
deriving Repr

/-- Oracles standing for the external collaborators of one document scan:
`urlOk u` is `_url_ok(u)`, `fsDoc t` is
`(Path(doc_path).parent / t).resolve().exists()` and `fsRoot t` is
`(root / t).exists()` for a target string `t`. -/
structure Env where
  urlOk : Str → Bool
  fsDoc : Str → Bool
  fsRoot : Str → Bool

/-- Model of `_mod_exists(root, mod)`: dots to slashes, then try the suffix set
`.py/.go/.ts/.rs` and the bare path against the root oracle. -/
def mod_exists (fsRoot : Str → Bool) (mod : Str) : Bool :=
  let mp := mod.map (fun c => if c = '.' then '/' else c)
  fsRoot (mp ++ ".py".toList) || fsRoot (mp ++ ".go".toList) ||
    fsRoot (mp ++ ".ts".toList) || fsRoot (mp ++ ".rs".toList) || fsRoot mp

/-- Test `href.startswith(('http://', 'https://'))`. -/
def startsHttp (href : Str) : Bool :=
  "http://".toList.isPrefixOf href || "https://".toList.isPrefixOf href

/-- Test `href.startswith(('mailto:', '#'))`. -/
def startsMailtoOrFrag (href : Str) : Bool :=
  "mailto:".toList.isPrefixOf href || "#".toList.isPrefixOf href

/-- Computation `href.split('#')[0].split('?')[0]`: strip fragment and query. -/
def stripTarget (href : Str) : Str :=
  (href.takeWhile (fun c => !(c = '#'))).takeWhile (fun c => !(c = '?'))

/-- Body of the per-link loop of `scan_doc` (`for m in LINK_RE.finditer`):
what one extracted link target contributes at line `i`. -/
def processLink (urlOk : Str → Bool) (checkUrls : Bool) (fsDoc fsRoot : Str → Bool)
    (rel : Str) (i : Nat) (href : Str) : List Issue :=
  let target := stripTarget href
  if startsHttp href then
    if checkUrls && !urlOk href then
      [mkIssue rel i "dead_url".toList ("URL error: ".toList ++ href)]
    else []
  else if startsMailtoOrFrag href then []
  else if !target.isEmpty && !fsDoc target then
    if !fsRoot target then
      [mkIssue rel i "broken_link".toList ("Broken link: ".toList ++ target)]
    else []
  else []

/-- Body of the per-import loop of `scan_doc`: what one extracted
import-like reference contributes at line `i`. -/
def processImport (fsRoot : Str → Bool) (rel : Str) (i : Nat) (mod : Str) : List Issue :=
  if !mod.isEmpty && !mod_exists fsRoot mod then
    [mkIssue rel i "stale_symbol".toList ("Module not found: ".toList ++ mod)]
  else []

/-- All issues from one line of the line pass (links, then imports). -/
def lineIssues (env : Env) (checkUrls : Bool) (rel : Str) (i : Nat) (line : Str) : List Issue :=
  (linksIn line).flatMap (processLink env.urlOk checkUrls env.fsDoc env.fsRoot rel i) ++
    (importsIn line).flatMap (processImport env.fsRoot rel i)

/-- Line loop of `scan_doc`: fence delimiters toggle `in_block` and are
skipped (`continue`); in-block lines are skipped; outside lines are
checked for links and imports. -/
def linePassAux (env : Env) (checkUrls : Bool) (rel : Str) :
    Bool → Nat → List Str → List Issue
  | _, _, [] => []
  | inb, i, l :: ls =>
    if isFenceLine l then linePassAux env checkUrls rel (!inb) (i + 1) ls
    else if inb then linePassAux env checkUrls rel inb (i + 1) ls
    else lineIssues env checkUrls rel i l ++ linePassAux env checkUrls rel inb (i + 1) ls

/-- Block loop of `scan_doc` over `CODE_BLOCK_RE.finditer(text)`, where
the reported line is `nl + 2`. -/
def blockPass (fsRoot : Str → Bool) (rel : Str) (text : Str) : List Issue :=
  (codeBlocks text).flatMap fun p =>
    (importsIn p.2).flatMap fun mod =>
      if !mod.isEmpty && !mod_exists fsRoot mod then
        [mkIssue rel (p.1 + 2) "code_drift".toList
          ("Code block refs missing: ".toList ++ mod)]
      else []

/-- Model of `scan_doc(doc_path, root, check_urls)`: `rel` is the document's path
relative to the root and `text` its contents (file reading and relative
path computation are outside the model). -/
def scan_doc (env : Env) (checkUrls : Bool) (rel : Str) (text : Str) : List Issue :=
  linePassAux env checkUrls rel false 1 (splitLines text) ++ blockPass env.fsRoot rel text

/-- The fence toggle of the line loops: flip `in_block` exactly on a line
starting with three backticks. -/
def fenceStep (inb : Bool) (l : Str) : Bool :=
  if isFenceLine l then !inb else inb

/-- Ghost observation of the line loop: the (index, line) pairs that are
actually processed by the line-level checks (outside fences, not a
delimiter). -/
def outsideLines : Bool → Nat → List Str → List (Nat × Str)
  | _, _, [] => []
  | inb, i, l :: ls =>
    if isFenceLine l then outsideLines (!inb) (i + 1) ls
    else if inb then outsideLines inb (i + 1) ls
    else (i, l) :: outsideLines inb (i + 1) ls

/-- A candidate documentation file: its full path segments (`doc.parts`),
its root-relative path string, its scan oracles and its text. -/
structure DocFile where
  parts : List Str
  rel : Str
  env : Env
  text : Str

/-- The exclusion set of `scan_repo`. -/
def excludedDirs : List Str :=
  [".git".toList, "node_modules".toList, "__pycache__".toList]

/-- Test `any(p in doc.parts for p in ('.git', 'node_modules', '__pycache__'))`. -/
def excludedDoc (d : DocFile) : Bool :=
  excludedDirs.any (fun p => d.parts.contains p)

/-- Inner loop of `scan_repo` over one sorted glob group: skip excluded
paths, `break` once the positive ceiling is reached, otherwise scan and
count.  Returns the issues contributed and the updated count. -/
def scanGroup (scanFn : DocFile → List Issue) (maxDocs : Nat) :
    Nat → List DocFile → List Issue × Nat
  | cnt, [] => ([], cnt)
  | cnt, d :: ds =>
    if excludedDoc d then scanGroup scanFn maxDocs cnt ds
    else if 0 < maxDocs ∧ maxDocs ≤ cnt then ([], cnt)
    else
      let rest := scanGroup scanFn maxDocs (cnt + 1) ds
      (scanFn d ++ rest.1, rest.2)

/-- Outer loop of `scan_repo` over the three extension groups; the inner
`break` only leaves the current group, the outer loop continues. -/
def scanRepoAux (scanFn : DocFile → List Issue) (maxDocs : Nat) :
    Nat → List (List DocFile) → List Issue × Nat
  | cnt, [] => ([], cnt)
  | cnt, g :: gs =>
    let r := scanGroup scanFn maxDocs cnt g
    let r2 := scanRepoAux scanFn maxDocs r.2 gs
    (r.1 ++ r2.1, r2.2)

/-- Model of `scan_repo(root, check_urls, max_docs)` over an abstract per-document
scanner; `groups` are the results of the three sorted glob patterns
(`**/*.md`, `**/*.rst`, `**/*.adoc`), an input of the model. -/
def scan_repo (scanFn : DocFile → List Issue) (maxDocs : Nat)
    (groups : List (List DocFile)) : ScanResult :=
  let r := scanRepoAux scanFn maxDocs 0 groups
  { issues := r.1, docs_scanned := r.2 }

/-- Full `scan_repo` wired to the real `scan_doc`, as in the source. -/
def scanRepoFull (checkUrls : Bool) (maxDocs : Nat)
    (groups : List (List DocFile)) : ScanResult :=
  scan_repo (fun d => scan_doc d.env checkUrls d.rel d.text) maxDocs groups

/-- Ghost observation of `scanGroup`: the documents actually scanned. -/
def scanGroupDocs (maxDocs : Nat) : Nat → List DocFile → List DocFile
  | _, [] => []
  | cnt, d :: ds =>
    if excludedDoc d then scanGroupDocs maxDocs cnt ds
    else if 0 < maxDocs ∧ maxDocs ≤ cnt then []
    else d :: scanGroupDocs maxDocs (cnt + 1) ds

/-- Ghost observation of `scanRepoAux`: the documents actually scanned. -/
def scanRepoDocs (maxDocs : Nat) : Nat → List (List DocFile) → List DocFile
  | _, [] => []
  | cnt, g :: gs =>
    let d := scanGroupDocs maxDocs cnt g
    d ++ scanRepoDocs maxDocs (cnt + d.length) gs

/-! ## CLI Command/Flag Staleness Detection -/

/-- The fixed recognized shell-language set `SHELL_LANGS`. -/
def shellLangs : List Str :=
  ["bash".toList, "shell".toList, "sh".toList, "console".toList, "zsh".toList]

/-- Configuration of one command in the CLI schema: its recognized and
deprecated flag tokens. -/
structure CmdCfg where
  flags : List Str
  deprecated : List Str
deriving DecidableEq, Repr

/-- The loaded CLI command schema: an insertion-ordered mapping from
command name to configuration (a Python dict with string keys). -/
abbrev Schema := List (Str × CmdCfg)

/-- Dict lookup `commands[name]` / membership `name in commands`. -/
def lookupCmd : Schema → Str → Option CmdCfg
  | [], _ => none
  | (n, c) :: rest, name => if n = name then some c else lookupCmd rest name

/-- Dict assignment `commands[name] = cfg`: overwrite in place if the key
exists, else append (insertion order preserved). -/
def updateCmd : Schema → Str → CmdCfg → Schema
  | [], name, cfg => [(name, cfg)]
  | (n, c) :: rest, name, cfg =>
    if n = name then (n, cfg) :: rest else (n, c) :: updateCmd rest name cfg

/-- Assignment `commands[name]['flags'] = fl` (the key is present
whenever this is reached). -/
def setCmdFlags : Schema → Str → List Str → Schema
  | [], _, _ => []
  | (n, c) :: rest, name, fl =>
    if n = name then (n, { c with flags := fl }) :: rest
    else (n, c) :: setCmdFlags rest name fl

/-- Assignment `commands[name]['deprecated'] = dep`. -/
def setCmdDeprecated : Schema → Str → List Str → Schema
  | [], _, _ => []
  | (n, c) :: rest, name, dep =>
    if n = name then (n, { c with deprecated := dep }) :: rest
    else (n, c) :: setCmdDeprecated rest name dep

/-- Test `str.endswith(suffix)`. -/
def strEndsWith (suffix l : Str) : Bool := suffix.reverse.isPrefixOf l.reverse

/-- Model of `_parse_yaml_list`: parse a YAML inline list `[a, b, c]`. -/
def parse_yaml_list (s0 : Str) : List Str :=
  let s := trim s0
  if "[".toList.isPrefixOf s && strEndsWith "]".toList s then
    (((s.drop 1).dropLast).splitOn ',').map trim |>.filter (fun x => !x.isEmpty)
  else []

/-- Loop of `_parse_cli_config` over the config lines.  State: the
commands parsed so far, the current command with its indent
(`current_cmd`, `cmd_indent`), the `in_commands` flag and
`commands_indent` (only read once `in_commands` is set, so its initial
value is irrelevant; Python initializes it to -1). -/
def parseCliLoop : Schema → Option (Str × Nat) → Bool → Nat → List Str → Schema
  | cmds, _, _, _, [] => cmds
  | cmds, cur, inC, cInd, l :: ls =>
    let stripped := trim l
    if stripped.isEmpty || "#".toList.isPrefixOf stripped then
      parseCliLoop cmds cur inC cInd ls
    else
      let indent := (l.takeWhile isSpaceCh).length
      if stripped = "commands:".toList then parseCliLoop cmds cur true indent ls
      else if !inC then parseCliLoop cmds cur inC cInd ls
      else if indent ≤ cInd then cmds
      else if strEndsWith ":".toList stripped &&
          !("flags:".toList.isPrefixOf stripped) &&
          !("deprecated:".toList.isPrefixOf stripped) then
        let name := trim stripped.dropLast
        parseCliLoop (updateCmd cmds name ⟨[], []⟩) (some (name, indent)) inC cInd ls
      else
        match cur with
        | some (cname, cmdInd) =>
          if cmdInd < indent then
            if "flags:".toList.isPrefixOf stripped then
              parseCliLoop (setCmdFlags cmds cname (parse_yaml_list (stripped.drop 6)))
                cur inC cInd ls
            else if "deprecated:".toList.isPrefixOf stripped then
              parseCliLoop (setCmdDeprecated cmds cname (parse_yaml_list (stripped.drop 11)))
                cur inC cInd ls
            else parseCliLoop cmds cur inC cInd ls
          else parseCliLoop cmds cur inC cInd ls
        | none => parseCliLoop cmds cur inC cInd ls

/-- Model of `_parse_cli_config(config_path)` on the file contents. -/
def parse_cli_config (text : Str) : Schema :=
  parseCliLoop [] none false 0 (splitLines text)

/-- Construction of `CliCommandDetector`: `configText` is the contents of
`.docrot-cli.yml` when that file exists, `none` when it is absent; the
resulting `self.commands` is `None` exactly when the file is absent. -/
def cliDetectorCommands (configText : Option Str) : Option Schema :=
  configText.map parse_cli_config

/-- Language tag of an opening fence line (`FENCE_LANG_RE = ^'''(\w*)`,
which always matches a line starting with three backticks). -/
def fenceLang (l : Str) : Str := (l.drop 3).takeWhile isWordCh

/-- Model of `CliCommandDetector._is_shell_block(lang, lines)`. -/
def is_shell_block (lang : Str) (lines : List (Nat × Str)) : Bool :=
  if shellLangs.contains (lang.map Char.toLower) then true
  else if lang.isEmpty then
    lines.any fun p =>
      let t := trim p.2
      "$".toList.isPrefixOf t || ">".toList.isPrefixOf t
  else false

/-- Substitution `re.sub(r'^\s*[$>]\s*', '', content)`: strip one leading
prompt marker together with surrounding whitespace, if present. -/
def stripPrompt (content : Str) : Str :=
  match content.dropWhile isSpaceCh with
  | c :: r => if c = '$' || c = '>' then r.dropWhile isSpaceCh else content
  | [] => content

/-- Split `re.split(r'\|{1,2}|&&|;', cmd_line)`: `||` and `&&` are single
separators, a lone `|` or `;` separates, a lone `&` is content. -/
def splitSegsAux : Str → Str → List Str
  | cur, [] => [cur.reverse]
  | cur, '|' :: '|' :: cs => cur.reverse :: splitSegsAux [] cs
  | cur, '|' :: cs => cur.reverse :: splitSegsAux [] cs
  | cur, ';' :: cs => cur.reverse :: splitSegsAux [] cs
  | cur, '&' :: '&' :: cs => cur.reverse :: splitSegsAux [] cs
  | cur, c :: cs => splitSegsAux (c :: cur) cs

/-- All command segments of one shell line. -/
def splitSegs (l : Str) : List Str := splitSegsAux [] l

/-- Python `str.split()` (whitespace, dropping empty pieces). -/
def wsplit (l : Str) : List Str :=
  (l.splitOnP isSpaceCh).filter (fun x => !x.isEmpty)

/-- Computation `parts[0].split('/')[-1]`: strip any path to the command. -/
def lastSlashComp (p : Str) : Str := (p.splitOn '/').getLastD []

/-- Body of the per-segment loop of `_check_block`: strip the segment,
skip it if empty, resolve the command name, skip unknown commands, then
classify every flag-shaped token of the segment. -/
def checkSegment (schema : Schema) (rel : Str) (line_no : Nat) (seg0 : Str) : List Issue :=
  let seg := trim seg0
  if seg.isEmpty then []
  else
    match wsplit seg with
    | [] => []
    | p :: _ =>
      match lookupCmd schema (lastSlashComp p) with
      | none => []
      | some cfg =>
        (cliFlags seg).flatMap fun flag =>
          if cfg.deprecated.contains flag then
            [mkIssue rel line_no "CLI_FLAG_DEPRECATED".toList
              ("Deprecated CLI flag \x27".toList ++ flag ++
                "\x27 for command \x27".toList ++ lastSlashComp p ++ "\x27".toList)]
          else if !cfg.flags.contains flag then
            [mkIssue rel line_no "CLI_FLAG_UNKNOWN".toList
              ("Unknown CLI flag \x27".toList ++ flag ++
                "\x27 for command \x27".toList ++ lastSlashComp p ++ "\x27".toList)]
          else []

/-- Body of the per-line loop of `_check_block`: strip a prompt marker,
skip blank and comment lines, split into segments and check each. -/
def checkBlockLine (schema : Schema) (rel : Str) (p : Nat × Str) : List Issue :=
  let cmdLine := trim (stripPrompt p.2)
  if cmdLine.isEmpty then []
  else if "#".toList.isPrefixOf cmdLine then []
  else (splitSegs cmdLine).flatMap (checkSegment schema rel p.1)

/-- Model of `CliCommandDetector._check_block(rel, lines)`. -/
def check_block (schema : Schema) (rel : Str) (lines : List (Nat × Str)) : List Issue :=
  lines.flatMap (checkBlockLine schema rel)

/-- Loop of `CliCommandDetector.detect`: fence tracking with block
language and buffered `(line number, text)` pairs; a closed shell block
is checked; an unterminated trailing block is discarded. -/
def detectAux (schema : Schema) (rel : Str) :
    Bool → Str → List (Nat × Str) → Nat → List Str → List Issue
  | _, _, _, _, [] => []
  | inb, blang, blines, i, l :: ls =>
    if isFenceLine l then
      if inb then
        (if is_shell_block blang blines then check_block schema rel blines else []) ++
          detectAux schema rel false [] [] (i + 1) ls
      else detectAux schema rel true (fenceLang l) [] (i + 1) ls
    else if inb then detectAux schema rel inb blang (blines ++ [(i, l)]) (i + 1) ls
    else detectAux schema rel inb blang blines (i + 1) ls

/-- Model of `CliCommandDetector.detect(doc_path)`: `rel` is the
document's path relative to the detector root, `text` its contents;
with no loaded schema the detector returns no issues. -/
def detect (commands : Option Schema) (rel : Str) (text : Str) : List Issue :=
  match commands with
  | none => []
  | some schema => detectAux schema rel false [] [] 1 (splitLines text)

/-- Model of `detect_cli_issues(doc_path, root)`: construct a detector
over the root (whose config file contents are `configText`, `none` when
absent) and run it on one document. -/
def detect_cli_issues (configText : Option Str) (rel : Str) (text : Str) : List Issue :=
  detect (cliDetectorCommands configText) rel text

/-- Ghost observation of the `detect` loop: the (language, buffered
lines) pairs of the complete fenced blocks, in order. -/
def detectBlocks : Bool → Str → List (Nat × Str) → Nat → List Str → List (Str × List (Nat × Str))
  | _, _, _, _, [] => []
  | inb, blang, blines, i, l :: ls =>
    if isFenceLine l then
      if inb then (blang, blines) :: detectBlocks false [] [] (i + 1) ls
      else detectBlocks true (fenceLang l) [] (i + 1) ls
    else if inb then detectBlocks inb blang (blines ++ [(i, l)]) (i + 1) ls
    else detectBlocks inb blang blines (i + 1) ls

/-- Substring test: does `l` contain the three-backtick delimiter? -/
def containsFence : Str → Bool
  | [] => false
  | c :: cs => isFenceLine (c :: cs) || containsFence cs

/-! ## Structural lemmas -/

theorem linePassAux_eq (env : Env) (checkUrls : Bool) (rel : Str) :
    ∀ (ls : List Str) (b : Bool) (i : Nat),
      linePassAux env checkUrls rel b i ls =
        (outsideLines b i ls).flatMap (fun p => lineIssues env checkUrls rel p.1 p.2) := by
  intro ls
  induction ls with
  | nil => intro b i; rfl
  | cons l ls ih =>
    intro b i
    cases h : isFenceLine l
    · cases b <;> simp [linePassAux, outsideLines, h, ih]
    · simp [linePassAux, outsideLines, h, ih]

theorem detectAux_eq (schema : Schema) (rel : Str) :
    ∀ (ls : List Str) (inb : Bool) (blang : Str) (blines : List (Nat × Str)) (i : Nat),
      detectAux schema rel inb blang blines i ls =
        (detectBlocks inb blang blines i ls).flatMap
          (fun blk => if is_shell_block blk.1 blk.2 then check_block schema rel blk.2 else []) := by
  intro ls
  induction ls with
  | nil => intro inb blang blines i; rfl
  | cons l ls ih =>
    intro inb blang blines i
    cases h : isFenceLine l
    · cases inb <;> simp [detectAux, detectBlocks, h, ih]
    · cases inb <;> simp [detectAux, detectBlocks, h, ih]

theorem detectBlocks_noFence :
    ∀ (ls : List Str) (inb : Bool) (blang : Str) (blines : List (Nat × Str)) (i : Nat),
      (∀ p ∈ blines, isFenceLine p.2 = false) →
      ∀ blk ∈ detectBlocks inb blang blines i ls, ∀ p ∈ blk.2, isFenceLine p.2 = false := by
  intro ls
  induction ls with
  | nil => intro inb blang blines i _ blk hblk; simp [detectBlocks] at hblk
  | cons l ls ih =>
    intro inb blang blines i hacc blk hblk
    cases h : isFenceLine l with
    | false =>
      cases inb with
      | false =>
        simp only [detectBlocks, h, Bool.false_eq_true, if_false] at hblk
        exact ih _ _ _ _ hacc blk hblk
      | true =>
        simp only [detectBlocks, h, Bool.false_eq_true, if_false, if_true] at hblk
        refine ih _ _ _ _ ?_ blk hblk
        intro p hp
        rcases List.mem_append.1 hp with hp' | hp'
        · exact hacc p hp'
        · simp at hp'; subst hp'; exact h
    | true =>
      cases inb with
      | false =>
        simp only [detectBlocks, h, Bool.false_eq_true, if_true, if_false] at hblk
        exact ih _ _ _ _ (by simp) blk hblk
      | true =>
        simp only [detectBlocks, h, if_true] at hblk
        rcases List.mem_cons.1 hblk with rfl | hblk'
        · exact hacc
        · exact ih _ _ _ _ (by simp) blk hblk'

theorem findCloseFence_eq :
    ∀ (l b r : Str), findCloseFence l = some (b, r) → l = b ++ fenceStr ++ r := by
  intro l
  induction l with
  | nil => intro b r h; simp [findCloseFence] at h
  | cons c cs ih =>
    intro b r h
    rw [findCloseFence] at h
    by_cases hp : fenceStr.isPrefixOf (c :: cs)
    · simp only [hp, if_true] at h
      obtain ⟨t, ht⟩ := (List.isPrefixOf_iff_prefix.1 hp)
      injection h with h
      injection h with h1 h2
      subst h1
      subst h2
      simp only [List.nil_append]
      conv_lhs => rw [← ht]
      rw [← ht]
      have h3 : fenceStr.length = 3 := rfl
      rw [show (3 : Nat) = fenceStr.length from rfl, List.drop_left]
    · simp only [hp, if_false] at h
      cases hfc : findCloseFence cs with
      | none => rw [hfc] at h; simp at h
      | some q =>
        obtain ⟨b', r'⟩ := q
        rw [hfc] at h
        simp at h
        obtain ⟨hb, hr⟩ := h
        subst hb
        subst hr
        simp [ih b' r' hfc]

theorem findCloseFence_body :
    ∀ (l b r : Str), findCloseFence l = some (b, r) → containsFence b = false := by
  intro l
  induction l with
  | nil => intro b r h; simp [findCloseFence] at h
  | cons c cs ih =>
    intro b r h
    rw [findCloseFence] at h
    by_cases hp : fenceStr.isPrefixOf (c :: cs)
    · simp only [hp, if_true] at h
      injection h with h
      injection h with h1 _
      subst h1
      rfl
    · simp only [hp, if_false] at h
      cases hfc : findCloseFence cs with
      | none => rw [hfc] at h; simp at h
      | some q =>
        obtain ⟨b', r'⟩ := q
        rw [hfc] at h
        simp at h
        obtain ⟨hb, hr⟩ := h
        subst hb
        subst hr
        rw [containsFence]
        have hbody := ih b' r' hfc
        have hpre : isFenceLine (c :: b') = false := by
          by_contra hcon
          apply hp
          have h1 : fenceStr <+: (c :: b') :=
            List.isPrefixOf_iff_prefix.1 (by
              cases h' : isFenceLine (c :: b')
              · exact absurd h' hcon
              · exact h')
          have h2 : (c :: b') <+: (c :: cs) := by
            have heq := findCloseFence_eq cs b' r' hfc
            exact ⟨fenceStr ++ r', by simp [heq]⟩
          exact List.isPrefixOf_iff_prefix.2 (h1.trans h2)
        simp only [isFenceLine] at hpre
        simp [isFenceLine, hpre, hbody]

theorem codeBlocksAux_body :
    ∀ (n nl : Nat) (l : Str) (p : Nat × Str),
      p ∈ codeBlocksAux n nl l → containsFence p.2 = false := by
  intro n
  induction n with
  | zero => intro nl l p hp; simp [codeBlocksAux] at hp
  | succ n ih =>
    intro nl l p hp
    cases l with
    | nil => simp [codeBlocksAux] at hp
    | cons c cs =>
      cases hop : tryOpenFence (c :: cs) with
      | none =>
        simp only [codeBlocksAux, hop] at hp
        exact ih _ _ p hp
      | some afterOpen =>
        cases hcl : findCloseFence afterOpen with
        | none => simp [codeBlocksAux, hop, hcl] at hp
        | some q =>
          obtain ⟨body, after⟩ := q
          simp only [codeBlocksAux, hop, hcl] at hp
          rcases List.mem_cons.1 hp with rfl | hp'
          · exact findCloseFence_body afterOpen body after hcl
          · exact ih _ _ p hp'

theorem processLink_shape {u : Str → Bool} {cu : Bool} {fd fr : Str → Bool}
    {rel : Str} {i : Nat} {href : Str} {x : Issue}
    (hx : x ∈ processLink u cu fd fr rel i href) :
    (x.kind = "dead_url".toList ∨ x.kind = "broken_link".toList) ∧
      x.severity = "warning".toList ∧ x.file = rel ∧ x.line = i := by
  simp only [processLink] at hx
  split at hx
  · split at hx
    · simp at hx; subst hx; exact ⟨Or.inl rfl, rfl, rfl, rfl⟩
    · simp at hx
  · split at hx
    · simp at hx
    · split at hx
      · split at hx
        · simp at hx; subst hx; exact ⟨Or.inr rfl, rfl, rfl, rfl⟩
        · simp at hx
      · simp at hx

theorem processImport_shape {fr : Str → Bool} {rel : Str} {i : Nat} {mod : Str} {x : Issue}
    (hx : x ∈ processImport fr rel i mod) :
    x.kind = "stale_symbol".toList ∧
      x.severity = "warning".toList ∧ x.file = rel ∧ x.line = i := by
  unfold processImport at hx
  split_ifs at hx <;>
    simp only [List.mem_singleton, List.not_mem_nil] at hx <;>
    subst hx <;>
    exact ⟨rfl, rfl, rfl, rfl⟩

theorem lineIssues_shape {env : Env} {cu : Bool} {rel : Str} {i : Nat} {l : Str} {x : Issue}
    (hx : x ∈ lineIssues env cu rel i l) :
    (x.kind = "dead_url".toList ∨ x.kind = "broken_link".toList ∨
        x.kind = "stale_symbol".toList) ∧
      x.severity = "warning".toList ∧ x.file = rel ∧ x.line = i := by
  unfold lineIssues at hx
  rcases List.mem_append.1 hx with hx' | hx'
  · obtain ⟨href, _, hmem⟩ := List.mem_flatMap.1 hx'
    obtain ⟨hk, hs, hf, hl⟩ := processLink_shape hmem
    exact ⟨by tauto, hs, hf, hl⟩
  · obtain ⟨mod, _, hmem⟩ := List.mem_flatMap.1 hx'
    obtain ⟨hk, hs, hf, hl⟩ := processImport_shape hmem
    exact ⟨by tauto, hs, hf, hl⟩

theorem blockPass_shape {fr : Str → Bool} {rel : Str} {text : Str} {x : Issue}
    (hx : x ∈ blockPass fr rel text) :
    x.kind = "code_drift".toList ∧ x.severity = "warning".toList ∧ x.file = rel ∧
      ∃ p ∈ codeBlocks text, x.line = p.1 + 2 := by
  unfold blockPass at hx
  obtain ⟨p, hp, hmem⟩ := List.mem_flatMap.1 hx
  obtain ⟨mod, hmod, hmem2⟩ := List.mem_flatMap.1 hmem
  split_ifs at hmem2 with h1
  · simp only [List.mem_singleton] at hmem2
    subst hmem2
    exact ⟨rfl, rfl, rfl, p, hp, rfl⟩
  · exact absurd hmem2 (by simp)

theorem scan_doc_shape {env : Env} {cu : Bool} {rel : Str} {text : Str} {x : Issue}
    (hx : x ∈ scan_doc env cu rel text) :
    (x.kind = "dead_url".toList ∨ x.kind = "broken_link".toList ∨
        x.kind = "stale_symbol".toList ∨ x.kind = "code_drift".toList) ∧
      x.severity = "warning".toList ∧ x.file = rel := by
  unfold scan_doc at hx
  rcases List.mem_append.1 hx with hx' | hx'
  · rw [linePassAux_eq] at hx'
    obtain ⟨p, _, hmem⟩ := List.mem_flatMap.1 hx'
    obtain ⟨hk, hs, hf, _⟩ := lineIssues_shape hmem
    exact ⟨by tauto, hs, hf⟩
  · obtain ⟨hk, hs, hf, _⟩ := blockPass_shape hx'
    exact ⟨by tauto, hs, hf⟩

theorem checkSegment_shape {schema : Schema} {rel : Str} {ln : Nat} {seg : Str} {x : Issue}
    (hx : x ∈ checkSegment schema rel ln seg) :
    (x.kind = "CLI_FLAG_DEPRECATED".toList ∨ x.kind = "CLI_FLAG_UNKNOWN".toList) ∧
      x.severity = "warning".toList ∧ x.file = rel ∧ x.line = ln := by
  simp only [checkSegment] at hx
  split_ifs at hx
  · simp at hx
  · cases hw : wsplit (trim seg) with
    | nil => simp only [hw] at hx; simp at hx
    | cons p ps =>
      cases hlk : lookupCmd schema (lastSlashComp p) with
      | none => simp only [hw, hlk] at hx; simp at hx
      | some cfg =>
        simp only [hw, hlk] at hx
        obtain ⟨flag, _, hmem⟩ := List.mem_flatMap.1 hx
        split_ifs at hmem <;>
          simp only [List.mem_singleton, List.not_mem_nil] at hmem <;>
          subst hmem <;>
          exact ⟨by simp [mkIssue], rfl, rfl, rfl⟩

theorem check_block_shape {schema : Schema} {rel : Str} {lines : List (Nat × Str)} {x : Issue}
    (hx : x ∈ check_block schema rel lines) :
    (x.kind = "CLI_FLAG_DEPRECATED".toList ∨ x.kind = "CLI_FLAG_UNKNOWN".toList) ∧
      x.severity = "warning".toList ∧ x.file = rel ∧ ∃ p ∈ lines, x.line = p.1 := by
  unfold check_block at hx
  obtain ⟨p, hp, hmem⟩ := List.mem_flatMap.1 hx
  simp only [checkBlockLine] at hmem
  split_ifs at hmem
  · simp at hmem
  · simp at hmem
  · obtain ⟨seg, _, hmem2⟩ := List.mem_flatMap.1 hmem
    obtain ⟨hk, hs, hf, hl⟩ := checkSegment_shape hmem2
    exact ⟨hk, hs, hf, p, hp, hl⟩

theorem detect_shape {cmds : Option Schema} {rel : Str} {text : Str} {x : Issue}
    (hx : x ∈ detect cmds rel text) :
    (x.kind = "CLI_FLAG_DEPRECATED".toList ∨ x.kind = "CLI_FLAG_UNKNOWN".toList) ∧
      x.severity = "warning".toList ∧ x.file = rel := by
  cases cmds with
  | none => simp [detect] at hx
  | some schema =>
    simp only [detect] at hx
    rw [detectAux_eq] at hx
    obtain ⟨blk, _, hmem⟩ := List.mem_flatMap.1 hx
    split_ifs at hmem with h1
    · obtain ⟨hk, hs, hf, _⟩ := check_block_shape hmem
      exact ⟨hk, hs, hf⟩
    · exact absurd hmem (by simp)

/-! ## Repository-scan lemmas -/

theorem scanGroup_eq (f : DocFile → List Issue) (m : Nat) :
    ∀ (ds : List DocFile) (cnt : Nat),
      scanGroup f m cnt ds =
        ((scanGroupDocs m cnt ds).flatMap f, cnt + (scanGroupDocs m cnt ds).length) := by
  intro ds
  induction ds with
  | nil => intro cnt; rfl
  | cons d ds ih =>
    intro cnt
    by_cases he : excludedDoc d
    · simp [scanGroup, scanGroupDocs, he, ih]
    · by_cases hc : 0 < m ∧ m ≤ cnt
      · simp [scanGroup, scanGroupDocs, he, hc]
      · simp [scanGroup, scanGroupDocs, he, hc, ih]
        omega

theorem scanGroupDocs_zero :
    ∀ (ds : List DocFile) (cnt : Nat),
      scanGroupDocs 0 cnt ds = ds.filter (fun d => !excludedDoc d) := by
  intro ds
  induction ds with
  | nil => intro cnt; rfl
  | cons d ds ih =>
    intro cnt
    by_cases he : excludedDoc d <;>
      simp [scanGroupDocs, List.filter_cons, he, ih]

theorem scanGroupDocs_pos (m : Nat) (hm : 0 < m) :
    ∀ (ds : List DocFile) (cnt : Nat),
      scanGroupDocs m cnt ds = (ds.filter (fun d => !excludedDoc d)).take (m - cnt) := by
  intro ds
  induction ds with
  | nil => intro cnt; simp [scanGroupDocs]
  | cons d ds ih =>
    intro cnt
    by_cases he : excludedDoc d
    · simp [scanGroupDocs, List.filter_cons, he, ih]
    · by_cases hc : m ≤ cnt
      · have : m - cnt = 0 := by omega
        simp [scanGroupDocs, List.filter_cons, he, hm, hc, this]
      · have hsucc : m - cnt = (m - (cnt + 1)) + 1 := by omega
        simp only [scanGroupDocs, he, Bool.false_eq_true, if_false, hsucc]
        rw [if_neg (by omega)]
        simp [List.filter_cons, he, ih]

theorem scanRepoAux_eq (f : DocFile → List Issue) (m : Nat) :
    ∀ (gs : List (List DocFile)) (cnt : Nat),
      scanRepoAux f m cnt gs =
        ((scanRepoDocs m cnt gs).flatMap f, cnt + (scanRepoDocs m cnt gs).length) := by
  intro gs
  induction gs with
  | nil => intro cnt; rfl
  | cons g gs ih =>
    intro cnt
    simp only [scanRepoAux, scanRepoDocs, scanGroup_eq, ih]
    simp
    omega

theorem scanRepoDocs_zero :
    ∀ (gs : List (List DocFile)) (cnt : Nat),
      scanRepoDocs 0 cnt gs = (gs.flatMap id).filter (fun d => !excludedDoc d) := by
  intro gs
  induction gs with
  | nil => intro cnt; rfl
  | cons g gs ih =>
    intro cnt
    simp [scanRepoDocs, scanGroupDocs_zero, ih, List.filter_append]

theorem scanRepoDocs_pos (m : Nat) (hm : 0 < m) :
    ∀ (gs : List (List DocFile)) (cnt : Nat),
      scanRepoDocs m cnt gs = ((gs.flatMap id).filter (fun d => !excludedDoc d)).take (m - cnt) := by
  intro gs
  induction gs with
  | nil => intro cnt; simp [scanRepoDocs]
  | cons g gs ih =>
    intro cnt
    have hlen : (scanGroupDocs m cnt g).length =
        min (m - cnt) ((g.filter (fun d => !excludedDoc d)).length) := by
      rw [scanGroupDocs_pos m hm, List.length_take]
    simp only [scanRepoDocs, scanGroupDocs_pos m hm, ih,
      List.flatMap_cons, id, List.filter_append, List.take_append_eq_append_take]
    congr 1
    congr 1
    rw [List.length_take]
    omega

theorem chars1_ne_nil {p : Char → Bool} {l m r : Str} (h : chars1 p l = some (m, r)) :
    m ≠ [] := by
  cases l with
  | nil => simp [chars1] at h
  | cons c cs =>
    simp only [chars1] at h
    split_ifs at h
    simp only [Option.some.injEq, Prod.mk.injEq] at h
    rw [← h.1]
    simp

theorem tryFromImport_ne_nil {l m r : Str} (h : tryFromImport l = some (m, r)) : m ≠ [] := by
  unfold tryFromImport at h
  split at h
  · simp at h
  · split at h
    · simp at h
    · split at h
      · simp at h
      · split at h
        · simp at h
        · split at h
          · simp at h
          · rename_i heq3 x4 r4 heq4 x5 r5 heq5
            simp only [Option.some.injEq, Prod.mk.injEq] at h
            rw [← h.1]
            exact chars1_ne_nil heq3

theorem tryPlainImport_ne_nil {l m r : Str} (h : tryPlainImport l = some (m, r)) : m ≠ [] := by
  unfold tryPlainImport at h
  split at h
  · simp at h
  · split at h
    · simp at h
    · split at h
      · simp at h
      · rename_i heq3
        simp only [Option.some.injEq, Prod.mk.injEq] at h
        rw [← h.1]
        exact chars1_ne_nil heq3

theorem importsInAux_ne_nil : ∀ (n : Nat) (l mod : Str), mod ∈ importsInAux n l → mod ≠ [] := by
  intro n
  induction n with
  | zero => intro l mod h; simp [importsInAux] at h
  | succ n ih =>
    intro l mod h
    cases l with
    | nil => simp [importsInAux] at h
    | cons c cs =>
      cases h1 : tryFromImport (c :: cs) with
      | some q =>
        obtain ⟨m, r⟩ := q
        simp only [importsInAux, h1] at h
        rcases List.mem_cons.1 h with rfl | h'
        · exact tryFromImport_ne_nil h1
        · exact ih _ _ h'
      | none =>
        cases h2 : tryPlainImport (c :: cs) with
        | some q =>
          obtain ⟨m, r⟩ := q
          simp only [importsInAux, h1, h2] at h
          rcases List.mem_cons.1 h with rfl | h'
          · exact tryPlainImport_ne_nil h2
          · exact ih _ _ h'
        | none =>
          simp only [importsInAux, h1, h2] at h
          exact ih _ _ h

theorem importsIn_ne_nil {l mod : Str} (h : mod ∈ importsIn l) : mod ≠ [] :=
  importsInAux_ne_nil _ _ _ h

/-- With URL checking disabled the network oracle is never consulted:
the per-link result does not depend on it. -/
theorem processLink_noCheck (u u' fd fr : Str → Bool) (rel : Str) (i : Nat) (href : Str) :
    processLink u false fd fr rel i href = processLink u' false fd fr rel i href := by
  simp [processLink]

theorem processLink_noCheck_kind {u fd fr : Str → Bool} {rel : Str} {i : Nat} {href : Str}
    {x : Issue} (hx : x ∈ processLink u false fd fr rel i href) :
    x.kind = "broken_link".toList := by
  simp only [processLink] at hx
  split at hx
  · simp at hx
  · split at hx
    · simp at hx
    · split at hx
      · split at hx
        · simp at hx; subst hx; rfl
        · simp at hx
      · simp at hx

/-! ## Claim theorems -/

/-- C3: for every relative (non-URL, non-mailto, non-fragment) link target
extracted from a line outside fenced blocks, if the fragment/query-stripped
target exists neither relative to the document directory nor relative to
the root, the link contributes exactly one `broken_link` issue at its
line; if it exists at either location, it contributes zero issues.  The
hypothesis `fsDoc [] = true` records that the empty target resolves to
the document directory itself, which exists on a real filesystem.  The
last conjunct records that the line pass processes every extracted link
through exactly this per-link function. -/
theorem claim_C3 (urlOk fsDoc fsRoot : Str → Bool) (checkUrls : Bool)
    (rel : Str) (i : Nat) (href : Str)
    (hhttp : startsHttp href = false) (hskip : startsMailtoOrFrag href = false)
    (hdir : fsDoc [] = true) :
    (fsDoc (stripTarget href) = false → fsRoot (stripTarget href) = false →
      processLink urlOk checkUrls fsDoc fsRoot rel i href =
        [mkIssue rel i "broken_link".toList ("Broken link: ".toList ++ stripTarget href)])
    ∧ ((fsDoc (stripTarget href) = true ∨ fsRoot (stripTarget href) = true) →
      processLink urlOk checkUrls fsDoc fsRoot rel i href = [])
    ∧ (∀ (env : Env) (cu : Bool) (j : Nat) (l : Str),
        lineIssues env cu rel j l =
          (linksIn l).flatMap (processLink env.urlOk cu env.fsDoc env.fsRoot rel j) ++
            (importsIn l).flatMap (processImport env.fsRoot rel j)) := by
  refine ⟨?_, ?_, fun env cu j l => rfl⟩
  · intro hd hr
    have hne : stripTarget href ≠ [] := by
      intro hcon
      rw [hcon, hdir] at hd
      exact Bool.noConfusion hd
    simp [processLink, hhttp, hskip, hd, hr, List.isEmpty_iff, hne]
  · intro h
    rcases h with hd | hr
    · simp [processLink, hhttp, hskip, hd]
    · cases hd : fsDoc (stripTarget href)
      · simp [processLink, hhttp, hskip, hd, hr]
      · simp [processLink, hhttp, hskip, hd]

/-- Witness for C3 at a concrete missing and a concrete present target. -/
theorem claim_C3_witness :
    processLink (fun _ => false) false (fun t => t.isEmpty) (fun _ => false)
        "docs/guide.md".toList 1 "../missing-file.md".toList =
      [mkIssue "docs/guide.md".toList 1 "broken_link".toList
        ("Broken link: ../missing-file.md").toList]
    ∧ processLink (fun _ => false) false
        (fun t => t.isEmpty || decide (t = "other.md".toList)) (fun _ => false)
        "docs/guide.md".toList 1 "other.md".toList = [] := by
  constructor
  · exact (claim_C3 (fun _ => false) (fun t => t.isEmpty) (fun _ => false) false
      "docs/guide.md".toList 1 "../missing-file.md".toList rfl rfl rfl).1 rfl rfl
  · exact (claim_C3 (fun _ => false)
      (fun t => t.isEmpty || decide (t = "other.md".toList)) (fun _ => false) false
      "docs/guide.md".toList 1 "other.md".toList rfl rfl rfl).2.1 (Or.inl (by decide))

/-- C5: a line toggles the fence state iff it starts with three backticks
(`isFenceLine`), each toggle flips the single boolean, a delimiter line
contributes nothing to the line-level checks, the CLI detector never
buffers a delimiter line into a block body, and a `CODE_BLOCK_RE` body
never contains the delimiter at all. -/
theorem claim_C5 :
    (∀ (b : Bool) (l : Str), (fenceStep b l ≠ b ↔ isFenceLine l = true) ∧
      (isFenceLine l = true → fenceStep b l = !b))
    ∧ (∀ (env : Env) (checkUrls : Bool) (rel : Str) (b : Bool) (i : Nat) (l : Str) (ls : List Str),
        isFenceLine l = true →
          linePassAux env checkUrls rel b i (l :: ls) =
            linePassAux env checkUrls rel (!b) (i + 1) ls)
    ∧ (∀ (env : Env) (checkUrls : Bool) (rel : Str) (b : Bool) (i : Nat) (l : Str) (ls : List Str),
        isFenceLine l = false →
          linePassAux env checkUrls rel b i (l :: ls) =
            (if b then [] else lineIssues env checkUrls rel i l) ++
              linePassAux env checkUrls rel b (i + 1) ls)
    ∧ (∀ (text : Str) (blk : Str × List (Nat × Str)),
        blk ∈ detectBlocks false [] [] 1 (splitLines text) →
        ∀ p ∈ blk.2, isFenceLine p.2 = false)
    ∧ (∀ (text : Str) (p : Nat × Str), p ∈ codeBlocks text → containsFence p.2 = false) := by
  refine ⟨?_, ?_, ?_, ?_, ?_⟩
  · intro b l
    constructor
    · unfold fenceStep
      cases h : isFenceLine l
      · simp
      · simp
    · intro h
      simp [fenceStep, h]
  · intro env cu rel b i l ls h
    simp [linePassAux, h]
  · intro env cu rel b i l ls h
    cases b <;> simp [linePassAux, h]
  · intro text blk hblk p hp
    exact detectBlocks_noFence _ _ _ _ _ (by simp) blk hblk p hp
  · intro text p hp
    exact codeBlocksAux_body _ _ _ p hp

/-- Witness for C5 at a concrete delimiter and non-delimiter line. -/
theorem claim_C5_witness :
    fenceStep false "```bash".toList = !false
    ∧ linePassAux ⟨fun _ => false, fun _ => false, fun _ => false⟩ false []
        false 1 ["```".toList, "x".toList] =
      linePassAux ⟨fun _ => false, fun _ => false, fun _ => false⟩ false []
        (!false) 2 ["x".toList] := by
  constructor
  · exact (claim_C5.1 false "```bash".toList).2 (by decide)
  · exact claim_C5.2.1 ⟨fun _ => false, fun _ => false, fun _ => false⟩ false []
      false 1 "```".toList ["x".toList] (by decide)

/-- C6: per command segment of a shell-example block line, an unknown
command name (first whitespace token, path prefix stripped) contributes
no issue; for a known command every flag-shaped token of the segment is
classified: deprecated ⇒ `CLI_FLAG_DEPRECATED`, recognized ⇒ nothing,
otherwise ⇒ `CLI_FLAG_UNKNOWN` (the deprecated set is tested first).
The last conjunct records that `_check_block` checks each block line. -/
theorem claim_C6 (schema : Schema) (rel : Str) (ln : Nat) (seg0 : Str)
    (p : Str) (ps : List Str) (hsplit : wsplit (trim seg0) = p :: ps) :
    (lookupCmd schema (lastSlashComp p) = none → checkSegment schema rel ln seg0 = [])
    ∧ (∀ cfg, lookupCmd schema (lastSlashComp p) = some cfg →
        checkSegment schema rel ln seg0 =
          (cliFlags (trim seg0)).flatMap fun flag =>
            if flag ∈ cfg.deprecated then
              [mkIssue rel ln "CLI_FLAG_DEPRECATED".toList
                ("Deprecated CLI flag \x27".toList ++ flag ++
                  "\x27 for command \x27".toList ++ lastSlashComp p ++ "\x27".toList)]
            else if flag ∈ cfg.flags then []
            else
              [mkIssue rel ln "CLI_FLAG_UNKNOWN".toList
                ("Unknown CLI flag \x27".toList ++ flag ++
                  "\x27 for command \x27".toList ++ lastSlashComp p ++ "\x27".toList)])
    ∧ (∀ lines, check_block schema rel lines = lines.flatMap (checkBlockLine schema rel)) := by
  have hne : (trim seg0).isEmpty = false := by
    cases h : (trim seg0).isEmpty
    · rfl
    · rw [List.isEmpty_iff] at h
      rw [h] at hsplit
      simp [wsplit] at hsplit
  refine ⟨?_, ?_, fun lines => rfl⟩
  · intro hlk
    simp [checkSegment, hne, hsplit, hlk]
  · intro cfg hlk
    simp only [checkSegment, hne, Bool.false_eq_true, if_false, hsplit, hlk]
    apply congrArg
    funext flag
    by_cases h1 : flag ∈ cfg.deprecated
    · simp [h1, List.elem_iff]
    · by_cases h2 : flag ∈ cfg.flags
      · simp [h1, h2, List.elem_iff]
      · simp [h1, h2, List.elem_iff]

/-- Witness for C6: an unknown command contributes nothing; for a known
command a deprecated and an unknown flag are classified. -/
theorem claim_C6_witness :
    checkSegment [("docrot".toList, ⟨["--format".toList], ["--legacy-mode".toList]⟩)]
        "d.md".toList 3 " unknowncmd --whatever ".toList = []
    ∧ checkSegment [("docrot".toList, ⟨["--format".toList], ["--legacy-mode".toList]⟩)]
        "d.md".toList 3 "/usr/bin/docrot --legacy-mode --format --nope".toList =
      ("--legacy-mode".toList :: "--format".toList :: ["--nope".toList]).flatMap
        (fun flag =>
          if flag ∈ ["--legacy-mode".toList] then
            [mkIssue "d.md".toList 3 "CLI_FLAG_DEPRECATED".toList
              ("Deprecated CLI flag \x27".toList ++ flag ++
                "\x27 for command \x27".toList ++ "docrot".toList ++ "\x27".toList)]
          else if flag ∈ ["--format".toList] then []
          else
            [mkIssue "d.md".toList 3 "CLI_FLAG_UNKNOWN".toList
              ("Unknown CLI flag \x27".toList ++ flag ++
                "\x27 for command \x27".toList ++ "docrot".toList ++ "\x27".toList)]) := by
  constructor
  · exact (claim_C6 [("docrot".toList, ⟨["--format".toList], ["--legacy-mode".toList]⟩)]
      "d.md".toList 3 " unknowncmd --whatever ".toList "unknowncmd".toList
      ["--whatever".toList] rfl).1 rfl
  · exact (claim_C6 [("docrot".toList, ⟨["--format".toList], ["--legacy-mode".toList]⟩)]
      "d.md".toList 3 "/usr/bin/docrot --legacy-mode --format --nope".toList
      "/usr/bin/docrot".toList
      ["--legacy-mode".toList, "--format".toList, "--nope".toList] rfl).2.1 _ rfl

/-- C7 counterexample: the claim says a block is scanned iff its declared
language is in the fixed set (or is empty with a prompt line), but the
code lowercases the language first: a block declared `Bash` — not a
member of the set and not empty — is scanned and yields an issue. -/
theorem claim_C7_counterexample :
    detect (some [("docrot".toList, ⟨["--format".toList], []⟩)]) "d.md".toList
        "Run:\n```Bash\ndocrot . --nope\n```\n".toList =
      [mkIssue "d.md".toList 3 "CLI_FLAG_UNKNOWN".toList
        ("Unknown CLI flag \x27--nope\x27 for command \x27docrot\x27").toList]
    ∧ "Bash".toList ∉ shellLangs ∧ "Bash".toList ≠ [] := by
  exact ⟨rfl, by decide, by decide⟩

/-- C7 (amended): the CLI Command Detector scans a complete fenced block
iff the lowercased declared language is in the fixed set {bash, shell,
sh, console, zsh}, or the language is empty and some contained line
starts with `$` or `>` after trimming; the scan applied to a classified
block is the same `_check_block` in either case. -/
theorem claim_C7 :
    (∀ (lang : Str) (lines : List (Nat × Str)),
      is_shell_block lang lines = true ↔
        (lang.map Char.toLower ∈ shellLangs ∨
          (lang = [] ∧ ∃ p ∈ lines,
            "$".toList.isPrefixOf (trim p.2) = true ∨
              ">".toList.isPrefixOf (trim p.2) = true)))
    ∧ (∀ (schema : Schema) (rel : Str) (text : Str),
        detect (some schema) rel text =
          (detectBlocks false [] [] 1 (splitLines text)).flatMap fun blk =>
            if is_shell_block blk.1 blk.2 then check_block schema rel blk.2 else []) := by
  constructor
  · intro lang lines
    simp only [is_shell_block]
    by_cases h1 : shellLangs.contains (lang.map Char.toLower) = true
    · rw [if_pos h1]
      simp only [true_iff]
      exact Or.inl (List.elem_iff.1 h1)
    · rw [if_neg h1]
      have h1' : lang.map Char.toLower ∉ shellLangs := by
        intro hmem
        exact h1 (List.elem_iff.2 hmem)
      by_cases h2 : lang.isEmpty = true
      · have hl : lang = [] := List.isEmpty_iff.1 h2
        subst hl
        rw [if_pos h2, List.any_eq_true]
        constructor
        · rintro ⟨p, hp, hcond⟩
          refine Or.inr ⟨rfl, p, hp, ?_⟩
          simpa using hcond
        · rintro (hmem | ⟨-, p, hp, hcond⟩)
          · exact absurd hmem h1'
          · exact ⟨p, hp, by simpa using hcond⟩
      · rw [if_neg h2]
        have hl : lang ≠ [] := by
          intro hcon
          rw [hcon] at h2
          simp at h2
        simp only [Bool.false_eq_true, false_iff]
        rintro (hmem | ⟨hcon, -⟩)
        · exact h1' hmem
        · exact hl hcon
  · intro schema rel text
    simp [detect, detectAux_eq]

/-- C8: with no schema file present, the detector is constructed with
`commands = None` and returns no issues for any document, for its whole
lifetime, without error (the model is total). -/
theorem claim_C8 :
    cliDetectorCommands none = none ∧
      ∀ (rel text : Str), detect (cliDetectorCommands none) rel text = [] :=
  ⟨rfl, fun _ _ => rfl⟩

/-- C9: with URL checking disabled, the network oracle is never consulted
(the scan result is independent of it), an `http(s)` link target
contributes no issue at all, and no `dead_url` issue is ever emitted. -/
theorem claim_C9 (u1 u2 fsDoc fsRoot : Str → Bool) (rel text : Str) :
    scan_doc ⟨u1, fsDoc, fsRoot⟩ false rel text = scan_doc ⟨u2, fsDoc, fsRoot⟩ false rel text
    ∧ (∀ (i : Nat) (href : Str), startsHttp href = true →
        processLink u1 false fsDoc fsRoot rel i href = [])
    ∧ (∀ x ∈ scan_doc ⟨u1, fsDoc, fsRoot⟩ false rel text, x.kind ≠ "dead_url".toList) := by
  refine ⟨?_, ?_, ?_⟩
  · unfold scan_doc
    rw [linePassAux_eq, linePassAux_eq]
    refine congrArg₂ (· ++ ·) ?_ rfl
    apply congrArg
    funext p
    unfold lineIssues
    refine congrArg₂ (· ++ ·) ?_ rfl
    apply congrArg
    funext href
    exact processLink_noCheck u1 u2 fsDoc fsRoot rel p.1 href
  · intro i href h
    simp [processLink, h]
  · intro x hx
    unfold scan_doc at hx
    rcases List.mem_append.1 hx with hx' | hx'
    · rw [linePassAux_eq] at hx'
      obtain ⟨p, _, hmem⟩ := List.mem_flatMap.1 hx'
      unfold lineIssues at hmem
      rcases List.mem_append.1 hmem with hm | hm
      · obtain ⟨href, _, hpl⟩ := List.mem_flatMap.1 hm
        rw [processLink_noCheck_kind hpl]
        decide
      · obtain ⟨mod, _, hpi⟩ := List.mem_flatMap.1 hm
        rw [(processImport_shape hpi).1]
        decide
    · rw [(blockPass_shape hx').1]
      decide

/-- Witness for C9: a concrete `https` link contributes nothing when URL
checking is off, even with an oracle that reports every URL dead. -/
theorem claim_C9_witness :
    processLink (fun _ => false) false (fun _ => false) (fun _ => false)
      "g.md".toList 1 "https://google.com".toList = [] :=
  (claim_C9 (fun _ => false) (fun _ => true) (fun _ => false) (fun _ => false)
    "g.md".toList []).2.1 1 "https://google.com".toList (by decide)

/-- C10: every issue constructed anywhere in the system (Doc Scanner line
and block passes, repository scan, CLI Command Detector) has severity
exactly `"warning"`. -/
theorem claim_C10 :
    (∀ (env : Env) (cu : Bool) (rel text : Str), ∀ x ∈ scan_doc env cu rel text,
        x.severity = "warning".toList)
    ∧ (∀ (cmds : Option Schema) (rel text : Str), ∀ x ∈ detect cmds rel text,
        x.severity = "warning".toList)
    ∧ (∀ (cu : Bool) (m : Nat) (groups : List (List DocFile)),
        ∀ x ∈ (scanRepoFull cu m groups).issues, x.severity = "warning".toList) := by
  refine ⟨fun env cu rel text x hx => (scan_doc_shape hx).2.1,
    fun cmds rel text x hx => (detect_shape hx).2.1, ?_⟩
  intro cu m groups x hx
  simp only [scanRepoFull, scan_repo] at hx
  rw [scanRepoAux_eq] at hx
  obtain ⟨d, _, hmem⟩ := List.mem_flatMap.1 hx
  exact (scan_doc_shape hmem).2.1

/-- Witness for C10 at a concrete broken-link issue. -/
theorem claim_C10_witness :
    (mkIssue "g.md".toList 1 "broken_link".toList
      ("Broken link: nope.md").toList).severity = "warning".toList :=
  claim_C10.1 ⟨fun _ => false, fun _ => false, fun _ => false⟩ false "g.md".toList
    "[x](nope.md)".toList _ (by decide)

/-- C2 counterexample: in the document
`'''python extra\nimport nomod\n'''` the reference `nomod` sits inside a
complete fenced block (the fold of the fence toggle returns to `outside`
and the import line is not among the outside lines), the module is
unresolved, yet the scan emits no issue at all: the block-pass pattern
does not match an opening fence with text after the language word, so no
`code_drift` is produced, contradicting the claim. -/
theorem claim_C2_counterexample :
    scan_doc ⟨fun _ => false, fun _ => false, fun _ => false⟩ false "g.md".toList
        "```python extra\nimport nomod\n```".toList = []
    ∧ splitLines "```python extra\nimport nomod\n```".toList =
        ["```python extra".toList, "import nomod".toList, "```".toList]
    ∧ outsideLines false 1 (splitLines "```python extra\nimport nomod\n```".toList) = []
    ∧ List.foldl fenceStep false (splitLines "```python extra\nimport nomod\n```".toList) = false
    ∧ importsIn "import nomod".toList = ["nomod".toList]
    ∧ mod_exists (fun _ => false) "nomod".toList = false :=
  ⟨rfl, rfl, rfl, rfl, rfl, rfl⟩

/-- C2 (amended): an unresolved import-like reference on a line outside
fenced blocks yields `stale_symbol` at its own line (every `stale_symbol`
issue carries the line number of an outside line); an unresolved
reference inside a block captured by the block-pass pattern — an opening
fence of three backticks followed only by a word-character language tag
and the end of the line — yields `code_drift` at the opening fence line
plus one (`nl` counts the newlines before the opening fence, so the
opening fence is line `nl + 1` and the issue line is `nl + 2`),
regardless of which internal line holds the reference. -/
theorem claim_C2 (env : Env) (checkUrls : Bool) (rel text : Str) :
    (∀ (i : Nat) (l : Str), (i, l) ∈ outsideLines false 1 (splitLines text) →
      ∀ mod ∈ importsIn l, mod_exists env.fsRoot mod = false →
        mkIssue rel i "stale_symbol".toList ("Module not found: ".toList ++ mod) ∈
          scan_doc env checkUrls rel text)
    ∧ (∀ (nl : Nat) (body : Str), (nl, body) ∈ codeBlocks text →
      ∀ mod ∈ importsIn body, mod_exists env.fsRoot mod = false →
        mkIssue rel (nl + 2) "code_drift".toList
            ("Code block refs missing: ".toList ++ mod) ∈
          scan_doc env checkUrls rel text)
    ∧ (∀ x ∈ scan_doc env checkUrls rel text, x.kind = "stale_symbol".toList →
        ∃ p ∈ outsideLines false 1 (splitLines text), x.line = p.1) := by
  refine ⟨?_, ?_, ?_⟩
  · intro i l hout mod hmod hex
    unfold scan_doc
    apply List.mem_append.2
    left
    rw [linePassAux_eq]
    apply List.mem_flatMap.2
    refine ⟨(i, l), hout, ?_⟩
    unfold lineIssues
    apply List.mem_append.2
    right
    apply List.mem_flatMap.2
    refine ⟨mod, hmod, ?_⟩
    have hne : mod.isEmpty = false := by
      cases h : mod.isEmpty
      · rfl
      · exact absurd (List.isEmpty_iff.1 h) (importsIn_ne_nil hmod)
    simp [processImport, hne, hex]
  · intro nl body hblk mod hmod hex
    unfold scan_doc
    apply List.mem_append.2
    right
    unfold blockPass
    apply List.mem_flatMap.2
    refine ⟨(nl, body), hblk, ?_⟩
    apply List.mem_flatMap.2
    refine ⟨mod, hmod, ?_⟩
    have hne : mod.isEmpty = false := by
      cases h : mod.isEmpty
      · rfl
      · exact absurd (List.isEmpty_iff.1 h) (importsIn_ne_nil hmod)
    simp [hne, hex]
  · intro x hx hkind
    unfold scan_doc at hx
    rcases List.mem_append.1 hx with hx' | hx'
    · rw [linePassAux_eq] at hx'
      obtain ⟨p, hp, hmem⟩ := List.mem_flatMap.1 hx'
      exact ⟨p, hp, (lineIssues_shape hmem).2.2.2⟩
    · have hk := (blockPass_shape hx').1
      rw [hkind] at hk
      exact absurd hk (by decide)

/-- Witness for C2 at a concrete stale import and a concrete drifting
code block over an empty filesystem. -/
theorem claim_C2_witness :
    mkIssue "g.md".toList 1 "stale_symbol".toList
        ("Module not found: nomod").toList ∈
      scan_doc ⟨fun _ => false, fun _ => false, fun _ => false⟩ false "g.md".toList
        "import nomod\n```py\nimport other\n```".toList
    ∧ mkIssue "g.md".toList 3 "code_drift".toList
        ("Code block refs missing: other").toList ∈
      scan_doc ⟨fun _ => false, fun _ => false, fun _ => false⟩ false "g.md".toList
        "import nomod\n```py\nimport other\n```".toList := by
  constructor
  · exact (claim_C2 ⟨fun _ => false, fun _ => false, fun _ => false⟩ false "g.md".toList
      "import nomod\n```py\nimport other\n```".toList).1 1 "import nomod".toList
      (by decide) "nomod".toList (by decide) rfl
  · exact (claim_C2 ⟨fun _ => false, fun _ => false, fun _ => false⟩ false "g.md".toList
      "import nomod\n```py\nimport other\n```".toList).2.1 1 "import other\n".toList
      (by decide) "other".toList (by decide) rfl

/-- C1 counterexample: a repository whose single document contains a
shell block invoking an unknown flag; the repository scan returns no
issues, while the CLI Command Detector (invoked separately on the same
document, with the schema file present at the root) reports one, so the
aggregate `ScanResult` does not contain the detector findings. -/
theorem claim_C1_counterexample :
    (scanRepoFull false 0
        [[⟨["usage.md".toList], "usage.md".toList,
           ⟨fun _ => false, fun _ => false, fun _ => false⟩,
           "Run:\n```bash\ndocrot . --nope\n```\n".toList⟩]]).issues = []
    ∧ detect_cli_issues (some "commands:\n  docrot:\n    flags: [--format]\n".toList)
        "usage.md".toList "Run:\n```bash\ndocrot . --nope\n```\n".toList =
      [mkIssue "usage.md".toList 3 "CLI_FLAG_UNKNOWN".toList
        ("Unknown CLI flag \x27--nope\x27 for command \x27docrot\x27").toList] :=
  ⟨rfl, rfl⟩

/-- C1 (amended): the aggregate `ScanResult` of a repository scan
contains only Doc Scanner findings — every issue kind is one of
`dead_url`, `broken_link`, `stale_symbol`, `code_drift`, never a CLI
detector kind; CLI findings are produced only by invoking the CLI
Command Detector separately. -/
theorem claim_C1 (checkUrls : Bool) (maxDocs : Nat) (groups : List (List DocFile)) :
    ∀ x ∈ (scanRepoFull checkUrls maxDocs groups).issues,
      (x.kind = "dead_url".toList ∨ x.kind = "broken_link".toList ∨
        x.kind = "stale_symbol".toList ∨ x.kind = "code_drift".toList) ∧
      x.kind ≠ "CLI_FLAG_UNKNOWN".toList ∧ x.kind ≠ "CLI_FLAG_DEPRECATED".toList := by
  intro x hx
  simp only [scanRepoFull, scan_repo] at hx
  rw [scanRepoAux_eq] at hx
  obtain ⟨d, _, hmem⟩ := List.mem_flatMap.1 hx
  obtain ⟨hk, -, -⟩ := scan_doc_shape hmem
  refine ⟨hk, ?_, ?_⟩ <;> rcases hk with h | h | h | h <;> rw [h] <;> decide

/-- Witness for C1 at a concrete repository with one broken link. -/
theorem claim_C1_witness :
    (mkIssue "a.md".toList 1 "broken_link".toList
        ("Broken link: nope.md").toList).kind ≠ "CLI_FLAG_UNKNOWN".toList :=
  (claim_C1 false 0
    [[⟨["a.md".toList], "a.md".toList,
       ⟨fun _ => false, fun _ => false, fun _ => false⟩,
       "[x](nope.md)".toList⟩]] _ (by decide)).2.1

/-- The candidate documents of a repository scan: the concatenation of
the three glob groups in pattern order, minus the excluded paths. -/
def candidateDocs (groups : List (List DocFile)) : List DocFile :=
  (groups.flatMap id).filter (fun d => !excludedDoc d)

/-- C4: the documents-scanned ceiling is global across the extension
groups: with `maxDocs > 0` exactly `min maxDocs (number of candidates)`
documents are processed (the first that many candidates in enumeration
order) and `docs_scanned` equals that number; `maxDocs = 0` means
unlimited; no document is counted twice (distinct candidate paths give
distinct processed paths); the aggregated issues are those of the
processed documents in order. -/
theorem claim_C4 (scanFn : DocFile → List Issue) (maxDocs : Nat)
    (groups : List (List DocFile)) :
    (0 < maxDocs → (scan_repo scanFn maxDocs groups).docs_scanned =
      min maxDocs (candidateDocs groups).length)
    ∧ (maxDocs = 0 → (scan_repo scanFn maxDocs groups).docs_scanned =
        (candidateDocs groups).length)
    ∧ (0 < maxDocs → scanRepoDocs maxDocs 0 groups = (candidateDocs groups).take maxDocs)
    ∧ (maxDocs = 0 → scanRepoDocs maxDocs 0 groups = candidateDocs groups)
    ∧ (((candidateDocs groups).map DocFile.parts).Nodup →
        ((scanRepoDocs maxDocs 0 groups).map DocFile.parts).Nodup)
    ∧ (scan_repo scanFn maxDocs groups).issues =
        (scanRepoDocs maxDocs 0 groups).flatMap scanFn := by
  have hsc : (scan_repo scanFn maxDocs groups).docs_scanned =
      (scanRepoDocs maxDocs 0 groups).length := by
    simp [scan_repo, scanRepoAux_eq]
  have his : (scan_repo scanFn maxDocs groups).issues =
      (scanRepoDocs maxDocs 0 groups).flatMap scanFn := by
    simp [scan_repo, scanRepoAux_eq]
  refine ⟨?_, ?_, ?_, ?_, ?_, his⟩
  · intro hm
    rw [hsc, scanRepoDocs_pos maxDocs hm, Nat.sub_zero, List.length_take]
    rfl
  · intro hm
    subst hm
    rw [hsc, scanRepoDocs_zero]
    rfl
  · intro hm
    rw [scanRepoDocs_pos maxDocs hm, Nat.sub_zero]
    rfl
  · intro hm
    subst hm
    rw [scanRepoDocs_zero]
    rfl
  · intro hnd
    rcases Nat.eq_zero_or_pos maxDocs with h0 | hpos
    · subst h0
      rw [scanRepoDocs_zero]
      exact hnd
    · rw [scanRepoDocs_pos maxDocs hpos, Nat.sub_zero]
      have : ((candidateDocs groups).take maxDocs).map DocFile.parts =
          ((candidateDocs groups).map DocFile.parts).take maxDocs := by
        rw [List.map_take]
      rw [show ((groups.flatMap id).filter (fun d => !excludedDoc d)) =
        candidateDocs groups from rfl, this]
      exact (List.take_sublist _ _).nodup hnd

/-- Witness for C4: two groups with three candidates (one more path is
excluded via a `.git` segment) and a ceiling of 2 scan exactly 2 docs. -/
theorem claim_C4_witness :
    (scan_repo (fun _ => []) 2
      [[⟨[".git".toList, "x.md".toList], "x.md".toList,
         ⟨fun _ => false, fun _ => false, fun _ => false⟩, []⟩,
        ⟨["a.md".toList], "a.md".toList,
         ⟨fun _ => false, fun _ => false, fun _ => false⟩, []⟩],
       [⟨["b.rst".toList], "b.rst".toList,
         ⟨fun _ => false, fun _ => false, fun _ => false⟩, []⟩,
        ⟨["c.rst".toList], "c.rst".toList,
         ⟨fun _ => false, fun _ => false, fun _ => false⟩, []⟩]]).docs_scanned = 2 := by
  have h := (claim_C4 (fun _ => [])
    2 [[⟨[".git".toList, "x.md".toList], "x.md".toList,
         ⟨fun _ => false, fun _ => false, fun _ => false⟩, []⟩,
        ⟨["a.md".toList], "a.md".toList,
         ⟨fun _ => false, fun _ => false, fun _ => false⟩, []⟩],
       [⟨["b.rst".toList], "b.rst".toList,
         ⟨fun _ => false, fun _ => false, fun _ => false⟩, []⟩,
        ⟨["c.rst".toList], "c.rst".toList,
         ⟨fun _ => false, fun _ => false, fun _ => false⟩, []⟩]]).1 (by decide)
  rw [h]
  rfl

end DocRot


